import Mathlib

/-!
Verification of the content-equivalence engine of `duplicate-kriller`
(`src/file.rs`).  The engine's `FileContent` struct and its `PartialEq`,
`Ord` and `PartialOrd` implementations are embedded shallowly below.
The two external collaborators (`Metadata` from `metadata.rs` and
`Hasher` from `hasher.rs`) are not part of the given sources; they are
modelled from their contracts in the specification, and the engine is
additionally parametrised over the hasher's chunked-compare operation so
that theorems about the engine hold for any hasher satisfying (or not
satisfying) the contract.

Rust object identity (the `self as *const _ == other as *const _` check)
is modelled by giving every candidate an index into a `World`; two
distinct indices are two distinct instances even when their paths agree.
Effects are made explicit: the comparison returns the updated world, the
list of lock acquisitions in order, and whether the hasher was invoked
(i.e. whether any file content was read).
-/

namespace DupKriller

/-- Paths are opaque to the engine; strings suffice. -/
abbrev FPath := String

/-- An I/O error value, opaque to the engine. -/
structure IOError where
  code : Nat
deriving DecidableEq, Repr

/-- Modelled from the spec: `Metadata` (from the absent `metadata.rs`) holds
stat-class facts — device identifier and size (§3: "device identifier, size,
and any attributes needed to detect obviously different files"). -/
structure Metadata where
  dev : Nat
  size : Nat
deriving DecidableEq, Repr

/-- Three-way comparison of naturals, used by the metadata order. -/
def natCmp (a b : Nat) : Ordering :=
  if a < b then .lt else if a = b then .eq else .gt

/-- Modelled from the spec: the Metadata Comparator's total order (§4.2):
primarily by device, then by size; equal device and equal size compare
"equal" at the metadata level. -/
def Metadata.cmp (a b : Metadata) : Ordering :=
  (natCmp a.dev b.dev).then (natCmp a.size b.size)

/-- Modelled from the spec: the Incremental Hasher's per-file progress
state (§3: "bytes-consumed counter and the rolling digest/state of a
resumable content hash"; `hasher.rs` is absent from the sources). -/
structure Hasher where
  bytesConsumed : Nat
  digest : List Nat
deriving DecidableEq, Repr

/-- Embedding of `Hasher::new()`: zero bytes consumed, empty digest (§4.3). -/
def Hasher.new : Hasher := ⟨0, []⟩

/-- The type of the Incremental Hasher's chunked compare operation
`compare(stateA, stateB, known_equal_size, pathA, pathB)`: it yields a
content ordering or an I/O error and returns both updated progress
states.  The engine is parametrised over it, since `hasher.rs` is not
among the given sources. -/
def HasherCompare : Type :=
  Hasher → Hasher → Nat → FPath → FPath → Except IOError Ordering × Hasher × Hasher

/-- Embedding of `FileContent` (src/file.rs lines 28-33): path, metadata snapshot taken
at construction, and incrementally calculated content hashes guarded by a
mutex (the guard itself is implicit here; lock acquisitions are traced by
the comparison operation). -/
structure FileContent where
  path : FPath
  metadata : Metadata
  hashes : Hasher
deriving DecidableEq, Repr

/-- Embedding of `FileContent::new(path, metadata)` (src/file.rs lines 42-49): always
succeeds, stores the given path and metadata snapshot and a fresh hasher;
it takes no filesystem argument, hence performs no stat. -/
def FileContent.new (p : FPath) (m : Metadata) : FileContent :=
  ⟨p, m, Hasher.new⟩

/-- A filesystem oracle for the stat call: modelled from the spec's
`from_path(path) → metadata | filesystem error` contract (§4.2). -/
def StatFS : Type := FPath → Except IOError Metadata

/-- Embedding of `FileContent::from_path(path)` (src/file.rs lines 36-40): stats the
path via `Metadata::from_path`, propagating its error with `?`, then
builds the candidate with `Self::new`. -/
def FileContent.from_path (fs : StatFS) (p : FPath) : Except IOError FileContent :=
  match fs p with
  | .error e => .error e
  | .ok m => .ok (FileContent.new p m)

/-- Candidate instances are identified by an index into a world; equal
indices model Rust pointer equality of `&FileContent`. -/
def World : Type := Nat → FileContent

/-- The observable outcome of one `partial_cmp` call: the returned
`Option<Ordering>`, the world after the call (hash states possibly
updated), the mutex acquisitions in order, and whether the hasher's
compare (the only content-reading step) was invoked. -/
structure CmpOutcome where
  result : Option Ordering
  world : World
  lockTrace : List Nat
  hasherInvoked : Bool

/-- Embedding of `Result::ok` as used on the hasher's return value in src/file.rs
line 87: an `Ok` ordering becomes `Some`, an I/O error becomes `None`. -/
def exceptOk (r : Except IOError Ordering) : Option Ordering :=
  match r with
  | .ok o => some o
  | .error _ => none

/-- Embedding of Rust `PartialOrd` for `FileContent` (src/file.rs lines 68-88):
1. compare the metadata snapshots; if not equal return that ordering
   (no lock, no content read);
2. if `self` and `other` are the same instance (pointer equality),
   return `Equal`;
3. otherwise lock `self`'s hashes, then `other`'s hashes, in that
   argument order, and delegate to the hasher's compare, degrading an
   I/O error to `None` via `.ok()`. -/
def pcmp (hc : HasherCompare) (w : World) (selfId otherId : Nat) : CmpOutcome :=
  let s := w selfId
  let o := w otherId
  let c := Metadata.cmp s.metadata o.metadata
  if c ≠ Ordering.eq then
    ⟨some c, w, [], false⟩
  else if selfId = otherId then
    ⟨some Ordering.eq, w, [], false⟩
  else
    let rhh := hc s.hashes o.hashes s.metadata.size s.path o.path
    let w' : World := fun i =>
      if i = selfId then ⟨s.path, s.metadata, rhh.2.1⟩
      else if i = otherId then ⟨o.path, o.metadata, rhh.2.2⟩
      else w i
    ⟨exceptOk rhh.1, w', [selfId, otherId], true⟩

/-- Embedding of Rust `PartialEq` for `FileContent` (src/file.rs lines 55-59):
`self.partial_cmp(other).map(|o| o == Ordering::Equal).unwrap_or(false)`.
Returns the boolean together with the world after the call. -/
def feq (hc : HasherCompare) (w : World) (a b : Nat) : Bool × World :=
  let out := pcmp hc w a b
  ((out.result.map (fun o => o == Ordering.eq)).getD false, out.world)

/-- Embedding of Rust `Ord` for `FileContent` (src/file.rs lines 61-65):
`self.partial_cmp(other).expect("Error handling here sucks")` — an
`Except` error models the panic of `expect` on `None`. -/
def fcmp (hc : HasherCompare) (w : World) (a b : Nat) :
    Except String Ordering × World :=
  let out := pcmp hc w a b
  (match out.result with
   | some o => .ok o
   | none => .error "Error handling here sucks",
   out.world)

/-- A sample hasher compare that succeeds with a fixed ordering and
leaves both progress states unchanged; used only as a concrete instance
in witnesses. -/
def hcConst (o : Ordering) : HasherCompare :=
  fun h1 h2 _ _ _ => (.ok o, h1, h2)

/-- A sample hasher compare that fails with an I/O error; used only as a
concrete instance in witnesses. -/
def hcFail : HasherCompare :=
  fun h1 h2 _ _ _ => (.error ⟨5⟩, h1, h2)

/-- A sample two-candidate world: index 0 is `"a"`, every other index is
`"b"`; both candidates have the same metadata snapshot. -/
def wSame : World :=
  fun i => if i = 0 then ⟨"a", ⟨1, 10⟩, Hasher.new⟩ else ⟨"b", ⟨1, 10⟩, Hasher.new⟩

/-- A sample two-candidate world whose candidates differ in size. -/
def wDiff : World :=
  fun i => if i = 0 then ⟨"a", ⟨1, 10⟩, Hasher.new⟩ else ⟨"b", ⟨1, 20⟩, Hasher.new⟩

/-- A sample world where two distinct instances hold the same path and
metadata. -/
def wAlias : World :=
  fun _ => ⟨"a", ⟨1, 10⟩, Hasher.new⟩

/-- A sample filesystem whose stat always succeeds. -/
def fsOk : StatFS := fun _ => .ok ⟨1, 10⟩

/-- A sample filesystem whose stat always fails. -/
def fsErr : StatFS := fun _ => .error ⟨2⟩

theorem natCmp_self (a : Nat) : natCmp a a = Ordering.eq := by
  simp [natCmp]

theorem natCmp_eq_iff (a b : Nat) : natCmp a b = Ordering.eq ↔ a = b := by
  by_cases h1 : a < b
  · simp [natCmp, h1]; omega
  · by_cases h2 : a = b
    · simp [natCmp, h1, h2]
    · simp [natCmp, h1, h2]

theorem ordering_then_eq_eq (x y : Ordering) :
    x.then y = Ordering.eq ↔ x = Ordering.eq ∧ y = Ordering.eq := by
  cases x <;> simp [Ordering.then]

theorem Metadata.cmp_eq_iff (a b : Metadata) :
    Metadata.cmp a b = Ordering.eq ↔ a = b := by
  cases a with
  | mk ad as =>
    cases b with
    | mk bd bs =>
      simp [Metadata.cmp, ordering_then_eq_eq, natCmp_eq_iff, Metadata.mk.injEq]

theorem Metadata.cmp_self (a : Metadata) : Metadata.cmp a a = Ordering.eq :=
  (Metadata.cmp_eq_iff a a).2 rfl

theorem ordering_beq_eq_true (x : Ordering) :
    (x == Ordering.eq) = true ↔ x = Ordering.eq := by
  cases x <;> decide

theorem ordering_beq_eq_false (x : Ordering) (h : x ≠ Ordering.eq) :
    (x == Ordering.eq) = false := by
  cases x
  · rfl
  · exact absurd rfl h
  · rfl

/-- C1: when the metadata snapshots of two candidates compare not-equal
under the metadata total order, `partial_cmp` returns exactly that
ordering, leaves the world untouched, acquires no lock, never invokes
the hasher (so no content is read), and `eq` returns `false`. -/
theorem metadata_fast_path (hc : HasherCompare) (w : World) (a b : Nat)
    (h : Metadata.cmp (w a).metadata (w b).metadata ≠ Ordering.eq) :
    pcmp hc w a b =
      ⟨some (Metadata.cmp (w a).metadata (w b).metadata), w, [], false⟩ ∧
    (feq hc w a b).1 = false := by
  constructor
  · simp [pcmp, h]
  · simp [feq, pcmp, h]
    exact ordering_beq_eq_false _ h

/-- C1 witness: two candidates differing in size (`wDiff`). -/
theorem metadata_fast_path_witness :
    Metadata.cmp (wDiff 0).metadata (wDiff 1).metadata ≠ Ordering.eq ∧
    (pcmp hcFail wDiff 0 1 =
      ⟨some (Metadata.cmp (wDiff 0).metadata (wDiff 1).metadata), wDiff, [], false⟩ ∧
     (feq hcFail wDiff 0 1).1 = false) :=
  ⟨by decide, metadata_fast_path hcFail wDiff 0 1 (by decide)⟩

/-- C2: `eq` returns `true` exactly when `partial_cmp` yields
`Some(Equal)`; the incomparable outcome `None` is mapped to `false`
(fail-closed, no exception: `feq` is a total function into `Bool`). -/
theorem eq_iff_compare_equal (hc : HasherCompare) (w : World) (a b : Nat) :
    ((feq hc w a b).1 = true ↔ (pcmp hc w a b).result = some Ordering.eq) ∧
    ((pcmp hc w a b).result = none → (feq hc w a b).1 = false) := by
  constructor
  · cases h : (pcmp hc w a b).result with
    | none => simp [feq, h]
    | some o =>
      simp [feq, h]
      exact ordering_beq_eq_true o
  · intro h
    simp [feq, h]

/-- C2 witness: a hasher failure makes `partial_cmp` incomparable and
`eq` false on two same-metadata candidates. -/
theorem eq_iff_compare_equal_witness :
    (pcmp hcFail wSame 0 1).result = none ∧ (feq hcFail wSame 0 1).1 = false :=
  ⟨rfl, (eq_iff_compare_equal hcFail wSame 0 1).2 rfl⟩

/-- C3: `cmp` (the total order) returns exactly the ordering produced by
`partial_cmp` when the latter is `Some`, and panics with the source's
`expect` message when it is `None`; the world it returns is the one
`partial_cmp` produced. -/
theorem total_order_delegates (hc : HasherCompare) (w : World) (a b : Nat) :
    (∀ o, (pcmp hc w a b).result = some o → (fcmp hc w a b).1 = Except.ok o) ∧
    ((pcmp hc w a b).result = none →
      (fcmp hc w a b).1 = Except.error "Error handling here sucks") ∧
    (fcmp hc w a b).2 = (pcmp hc w a b).world := by
  refine ⟨?_, ?_, rfl⟩
  · intro o ho
    simp [fcmp, ho]
  · intro ho
    simp [fcmp, ho]

/-- C3 witness: a successful content comparison is passed through and a
failed one panics. -/
theorem total_order_delegates_witness :
    ((pcmp (hcConst Ordering.lt) wSame 0 1).result = some Ordering.lt ∧
     (fcmp (hcConst Ordering.lt) wSame 0 1).1 = Except.ok Ordering.lt) ∧
    ((pcmp hcFail wSame 0 1).result = none ∧
     (fcmp hcFail wSame 0 1).1 = Except.error "Error handling here sucks") :=
  ⟨⟨rfl, (total_order_delegates (hcConst Ordering.lt) wSame 0 1).1 Ordering.lt rfl⟩,
   ⟨rfl, (total_order_delegates hcFail wSame 0 1).2.1 rfl⟩⟩

/-- C5: comparing a candidate instance with itself returns `Equal`
without acquiring any lock or invoking the hasher (pure pointer
shortcut), while two distinct instances with the same path and equal
metadata do go through the hasher (the shortcut does not fire on mere
path equality). -/
theorem identity_shortcut (hc : HasherCompare) (w : World) (a b : Nat)
    (hne : a ≠ b) (hpath : (w a).path = (w b).path)
    (hm : Metadata.cmp (w a).metadata (w b).metadata = Ordering.eq) :
    pcmp hc w a a = ⟨some Ordering.eq, w, [], false⟩ ∧
    (pcmp hc w a b).hasherInvoked = true ∧
    (pcmp hc w a b).lockTrace = [a, b] := by
  refine ⟨?_, ?_, ?_⟩
  · simp [pcmp, Metadata.cmp_self]
  · simp [pcmp, hm, hne]
  · simp [pcmp, hm, hne]

/-- C5 witness: `wAlias` holds two distinct instances of the same path
and metadata. -/
theorem identity_shortcut_witness :
    (0 ≠ 1 ∧ (wAlias 0).path = (wAlias 1).path ∧
     Metadata.cmp (wAlias 0).metadata (wAlias 1).metadata = Ordering.eq) ∧
    (pcmp hcFail wAlias 0 0 = ⟨some Ordering.eq, wAlias, [], false⟩ ∧
     (pcmp hcFail wAlias 0 1).hasherInvoked = true ∧
     (pcmp hcFail wAlias 0 1).lockTrace = [0, 1]) :=
  ⟨⟨by decide, rfl, rfl⟩,
   identity_shortcut hcFail wAlias 0 1 (by decide) rfl rfl⟩

/-- C9: `eq(A, A)` on the same candidate instance is `true`: the
metadata snapshot compares equal to itself and the identity shortcut
yields `Equal`. -/
theorem eq_reflexive (hc : HasherCompare) (w : World) (a : Nat) :
    (feq hc w a a).1 = true := by
  simp [feq, pcmp, Metadata.cmp_self]
  rfl

/-- C4: when the metadata snapshots compare equal and the instances are
distinct, `partial_cmp` returns the hasher's content ordering, mapped
through `Result::ok`: an `Ok` ordering becomes `Some` of it and an I/O
error becomes `None` (incomparable) — never a propagated hard error. -/
theorem content_path_degrades (hc : HasherCompare) (w : World) (a b : Nat)
    (hm : Metadata.cmp (w a).metadata (w b).metadata = Ordering.eq)
    (hne : a ≠ b) :
    (pcmp hc w a b).result =
      exceptOk (hc (w a).hashes (w b).hashes (w a).metadata.size
        (w a).path (w b).path).1 ∧
    (∀ e, (hc (w a).hashes (w b).hashes (w a).metadata.size
        (w a).path (w b).path).1 = Except.error e →
      (pcmp hc w a b).result = none) ∧
    (∀ o, (hc (w a).hashes (w b).hashes (w a).metadata.size
        (w a).path (w b).path).1 = Except.ok o →
      (pcmp hc w a b).result = some o) := by
  refine ⟨by simp [pcmp, hm, hne], ?_, ?_⟩
  · intro e he
    simp [pcmp, hm, hne, he, exceptOk]
  · intro o ho
    simp [pcmp, hm, hne, ho, exceptOk]

/-- C4 witness: a failing hasher on two same-metadata candidates gives
the incomparable outcome. -/
theorem content_path_degrades_witness :
    (Metadata.cmp (wSame 0).metadata (wSame 1).metadata = Ordering.eq ∧
     (0 : Nat) ≠ 1) ∧
    ((pcmp hcFail wSame 0 1).result =
      exceptOk (hcFail (wSame 0).hashes (wSame 1).hashes (wSame 0).metadata.size
        (wSame 0).path (wSame 1).path).1 ∧
     (pcmp hcFail wSame 0 1).result = none) :=
  ⟨⟨rfl, by decide⟩,
   ⟨(content_path_degrades hcFail wSame 0 1 rfl (by decide)).1,
    (content_path_degrades hcFail wSame 0 1 rfl (by decide)).2.1 ⟨5⟩ rfl⟩⟩

/-- C6: `from_path` fails exactly when the stat oracle fails on the
path, and on a successful stat yields a candidate holding that path, the
obtained metadata, and a fresh hasher state; the second constructor
`new` is total (always succeeds), takes no filesystem argument (performs
no stat), and returns exactly the path, the given snapshot and a fresh
hasher state. -/
theorem from_path_spec (fs : StatFS) (p : FPath) :
    (∀ e, FileContent.from_path fs p = Except.error e ↔ fs p = Except.error e) ∧
    (∀ m, fs p = Except.ok m →
      FileContent.from_path fs p = Except.ok ⟨p, m, Hasher.new⟩) ∧
    (∀ (q : FPath) (m : Metadata), FileContent.new q m = ⟨q, m, Hasher.new⟩) := by
  refine ⟨?_, ?_, fun q m => rfl⟩
  · intro e
    cases h : fs p <;> simp [FileContent.from_path, h]
  · intro m h
    simp [FileContent.from_path, h, FileContent.new]

/-- C6 witness: a failing stat propagates its error; a successful stat
yields the freshly built candidate. -/
theorem from_path_spec_witness :
    (FileContent.from_path fsErr "a" = Except.error ⟨2⟩ ↔
      fsErr "a" = Except.error ⟨2⟩) ∧
    (fsOk "a" = Except.ok ⟨1, 10⟩ ∧
     FileContent.from_path fsOk "a" = Except.ok ⟨"a", ⟨1, 10⟩, Hasher.new⟩) :=
  ⟨(from_path_spec fsErr "a").1 ⟨2⟩,
   ⟨rfl, (from_path_spec fsOk "a").2.1 ⟨1, 10⟩ rfl⟩⟩

/-- C7: the lock acquisition order of `partial_cmp` is the call-argument
order (`self` first, then `other`), not a canonical order derived from a
stable identity of the pair: on the same two candidates, `compare(A, B)`
and `compare(B, A)` acquire the locks in opposite orders. -/
theorem lock_order_is_argument_order :
    (pcmp (hcConst Ordering.eq) wSame 0 1).lockTrace = [0, 1] ∧
    (pcmp (hcConst Ordering.eq) wSame 1 0).lockTrace = [1, 0] ∧
    ((0 : Nat) :: [1] ≠ 1 :: [0]) := by
  refine ⟨rfl, rfl, by decide⟩

/-- C8: `partial_cmp` changes no candidate other than the two operands,
preserves the path and the metadata snapshot of both operands (only
their hash progress may change), and `eq` and `cmp` return exactly the
world `partial_cmp` produced. -/
theorem compare_frame (hc : HasherCompare) (w : World) (a b : Nat) :
    (∀ i, i ≠ a → i ≠ b → (pcmp hc w a b).world i = w i) ∧
    ((pcmp hc w a b).world a).path = (w a).path ∧
    ((pcmp hc w a b).world a).metadata = (w a).metadata ∧
    ((pcmp hc w a b).world b).path = (w b).path ∧
    ((pcmp hc w a b).world b).metadata = (w b).metadata ∧
    (feq hc w a b).2 = (pcmp hc w a b).world ∧
    (fcmp hc w a b).2 = (pcmp hc w a b).world := by
  by_cases h1 : Metadata.cmp (w a).metadata (w b).metadata = Ordering.eq
  · by_cases h2 : a = b
    · subst h2
      refine ⟨fun i _ _ => ?_, ?_, ?_, ?_, ?_, rfl, rfl⟩ <;> simp [pcmp, h1]
    · have h2' : b ≠ a := fun h => h2 h.symm
      refine ⟨fun i hia hib => ?_, ?_, ?_, ?_, ?_, rfl, rfl⟩
      · simp [pcmp, h1, h2, hia, hib]
      · simp [pcmp, h1, h2]
      · simp [pcmp, h1, h2]
      · simp [pcmp, h1, h2, h2']
      · simp [pcmp, h1, h2, h2']
  · refine ⟨fun i _ _ => ?_, ?_, ?_, ?_, ?_, rfl, rfl⟩ <;> simp [pcmp, h1]

/-- C8 witness: a third candidate is untouched and both operands keep
their path after a comparison that invoked the hasher. -/
theorem compare_frame_witness :
    ((pcmp hcFail wSame 0 1).world 2 = wSame 2 ∧
     ((pcmp hcFail wSame 0 1).world 0).path = (wSame 0).path ∧
     ((pcmp hcFail wSame 0 1).world 1).metadata = (wSame 1).metadata) :=
  ⟨(compare_frame hcFail wSame 0 1).1 2 (by decide) (by decide),
   (compare_frame hcFail wSame 0 1).2.1,
   (compare_frame hcFail wSame 0 1).2.2.2.2.1⟩

/-- C10: `eq` is symmetric, given that the hasher's compare is
antisymmetric under argument exchange (the swapped call returns the
reversed ordering) and fails on the swapped pair exactly when it fails
on the original pair; the metadata comparator of the model is a total
order, so its part of the proviso holds by construction. -/
theorem eq_symmetric (hc : HasherCompare) (w : World) (a b : Nat)
    (hswap : ∀ h1 h2 n p q,
      (∀ o, (hc h1 h2 n p q).1 = Except.ok o →
        (hc h2 h1 n q p).1 = Except.ok o.swap) ∧
      (∀ e, (hc h1 h2 n p q).1 = Except.error e →
        ∃ e2, (hc h2 h1 n q p).1 = Except.error e2)) :
    (feq hc w a b).1 = (feq hc w b a).1 := by
  by_cases h1 : Metadata.cmp (w a).metadata (w b).metadata = Ordering.eq
  · have hmeq : (w a).metadata = (w b).metadata := (Metadata.cmp_eq_iff _ _).1 h1
    have h1' : Metadata.cmp (w b).metadata (w a).metadata = Ordering.eq :=
      (Metadata.cmp_eq_iff _ _).2 hmeq.symm
    by_cases h2 : a = b
    · subst h2
      rfl
    · have h2' : b ≠ a := fun h => h2 h.symm
      have hsz : (w b).metadata.size = (w a).metadata.size := by rw [hmeq]
      obtain ⟨hok, herr⟩ :=
        hswap (w a).hashes (w b).hashes (w a).metadata.size (w a).path (w b).path
      cases hr : (hc (w a).hashes (w b).hashes (w a).metadata.size
          (w a).path (w b).path).1 with
      | ok o =>
        have hr' := hok o hr
        simp [feq, pcmp, h1, h1', h2, h2', hsz, hr, hr', exceptOk]
        cases o <;> rfl
      | error e =>
        obtain ⟨e2, hr'⟩ := herr e hr
        simp [feq, pcmp, h1, h1', h2, h2', hsz, hr, hr', exceptOk]
  · have h1' : Metadata.cmp (w b).metadata (w a).metadata ≠ Ordering.eq := by
      intro hcon
      exact h1 ((Metadata.cmp_eq_iff _ _).2 ((Metadata.cmp_eq_iff _ _).1 hcon).symm)
    simp [feq, pcmp, h1, h1']
    rw [ordering_beq_eq_false _ h1, ordering_beq_eq_false _ h1']

/-- C10 witness: a hasher that fails on every pair fails on the swapped
pair exactly when it fails on the original, and `eq` agrees in both
directions. -/
theorem eq_symmetric_witness :
    (feq hcFail wSame 0 1).1 = (feq hcFail wSame 1 0).1 :=
  eq_symmetric hcFail wSame 0 1
    (fun h1 h2 n p q =>
      ⟨fun o ho => by simp [hcFail] at ho, fun e _ => ⟨⟨5⟩, rfl⟩⟩)

end DupKriller
